import Mathlib

/-!
Verification development for the TierList client-side arrangement engine
(`src/app/page.tsx`).  The container store is a JavaScript object mapping
container ids (tier ids and the bank id) to ordered arrays of item ids; we
embed it as an association list that preserves JavaScript's key insertion
order.  The event handlers (`handleDragEnd`, `handleSaveList`,
`handleLoadList`, the template-selection effect) are embedded as pure
functions on that representation, and the page-level behaviour as a
transition system over an application state.
-/

set_option maxHeartbeats 1000000

namespace TierList

/-- Tier record from `page.tsx` (`interface Tier`): identity, label, color. -/
structure Tier where
  id : String
  label : String
  color : String
deriving DecidableEq, Repr

/-- Item record from `page.tsx` (`interface Item`): id, display name, image URL. -/
structure Item where
  id : String
  name : String
  imageUrl : String
deriving DecidableEq, Repr

/-- Static tier set (`initialTiersData`). -/
def initialTiersData : List Tier :=
  [ { id := "tier-s", label := "S", color := "bg-red-500" },
    { id := "tier-a", label := "A", color := "bg-orange-500" },
    { id := "tier-b", label := "B", color := "bg-yellow-500" },
    { id := "tier-c", label := "C", color := "bg-green-500" },
    { id := "tier-d", label := "D", color := "bg-blue-500" } ]

/-- Static fallback item set (`initialItemsData`). -/
def initialItemsData : List Item :=
  [ { id := "item-1", name := "Item 1", imageUrl := "/placeholder.svg" },
    { id := "item-2", name := "Item 2", imageUrl := "/placeholder.svg" },
    { id := "item-3", name := "Item 3", imageUrl := "/placeholder.svg" },
    { id := "item-4", name := "Item 4", imageUrl := "/placeholder.svg" },
    { id := "item-5", name := "Item 5", imageUrl := "/placeholder.svg" } ]

/-- Reserved bank container id (`const BANK_ID = 'bank'`). -/
def BANK_ID : String := "bank"

/-- The `Containers` state (`type Containers = Record<string, string[]>`):
a JavaScript object from container id to ordered array of item ids,
embedded as an association list in key insertion order. -/
abbrev Containers := List (String × List String)

/-- Reading `m[k]` where an absent key behaves as the empty array
(the handlers guard every read with `m[k] ? [...m[k]] : []` or `?? []`). -/
def getD (m : Containers) (k : String) : List String :=
  match m with
  | [] => []
  | (k', v) :: rest => if k' = k then v else getD rest k

/-- Whether `k` is a key of the object (`k in m`). -/
def hasKey (m : Containers) (k : String) : Bool :=
  match m with
  | [] => false
  | (k', _) :: rest => k' = k || hasKey rest k

/-- The assignment `m[k] = v`: overwrite the value of an existing key in
place, otherwise append a new key at the end (JavaScript key order). -/
def setKey (m : Containers) (k : String) (v : List String) : Containers :=
  match m with
  | [] => [(k, v)]
  | (k', v') :: rest => if k' = k then (k, v) :: rest else (k', v') :: setKey rest k v

/-- Key sequence of the object (`Object.keys(m)`). -/
def keysOf (m : Containers) : List String :=
  m.map Prod.fst

/-- Concatenation of all container contents, in key order. -/
def containerUnion (m : Containers) : List String :=
  (m.map Prod.snd).flatten

/-- Splice of the first occurrence
(`items.splice(items.findIndex(id => id === x), 1)`). -/
def removeFirst (l : List String) (x : String) : List String :=
  match l with
  | [] => []
  | y :: ys => if y = x then ys else y :: removeFirst ys x

/-- The `findContainer` helper of `page.tsx`: first container id whose
sequence includes the item id, scanning keys in insertion order. -/
def findContainer (m : Containers) (itemId : String) : Option String :=
  match m with
  | [] => none
  | (k, v) :: rest => if itemId ∈ v then some k else findContainer rest itemId

/-- Defensive all-container scan of `handleDragEnd`: walk the keys in
order and splice the item out of the first container holding it. -/
def defensiveScan (m : Containers) (itemId : String) : Containers :=
  match m with
  | [] => []
  | (k, v) :: rest =>
      if itemId ∈ v then (k, removeFirst v itemId) :: rest
      else (k, v) :: defensiveScan rest itemId

/-- The `handleDragEnd` handler's effect on the containers state, for a
drag of `activeId` ending over drop target `over` (`none` when the item
was dropped outside every droppable).  Mirrors `page.tsx` lines 609-658:
the move only happens when a drop target exists and differs from the
dragged item, both container lookups succeed (JavaScript falsiness
rejects an empty-string target id), the item is spliced out of its source
(with the defensive scan as fallback) and pushed onto the end of the
destination array, creating the destination key when absent. -/
def handleDragEnd (m : Containers) (activeId : String) (over : Option String) : Containers :=
  match over with
  | none => m
  | some overId =>
      if activeId = overId then m
      else
        match findContainer m activeId with
        | none => m
        | some activeContainerId =>
            if overId = "" then m
            else
              let sourceItems := getD m activeContainerId
              let m1 := if activeId ∈ sourceItems
                then setKey m activeContainerId (removeFirst sourceItems activeId)
                else defensiveScan m activeId
              let destinationItems := getD m1 overId
              setKey m1 overId (destinationItems ++ [activeId])

/-- Container reset used by the template-selection effect: every tier id
maps to an empty array and the bank holds the item ids in catalog order. -/
def resetContainersFor (tiers : List Tier) (items : List Item) : Containers :=
  (tiers.map fun tier => (tier.id, ([] : List String))) ++ [(BANK_ID, items.map Item.id)]

/-- Outcome of the item-catalog fetch performed when a template is selected. -/
inductive FetchOutcome where
  | success (fetchedItems : List Item)
  | failure
deriving DecidableEq

/-- The `loadItemsForTemplate` effect body (`page.tsx` lines 223-266),
returning the new `items` state and the new containers state.  `none`
means no template is selected (static fallback data); on a fetch failure
the items are cleared and the board is empty. -/
def loadItemsForTemplate (tiers : List Tier) (selected : Option FetchOutcome) :
    List Item × Containers :=
  match selected with
  | none => (initialItemsData, resetContainersFor tiers initialItemsData)
  | some (.success fetchedItems) => (fetchedItems, resetContainersFor tiers fetchedItems)
  | some .failure => ([], resetContainersFor tiers [])

/-- The save projection built by `handleSaveList` (`page.tsx` lines
402-407): every container entry except the bank key. -/
def handleSaveList (m : Containers) : Containers :=
  m.filter fun kv => decide (kv.1 ≠ BANK_ID)

/-- The containers state rebuilt by `handleLoadList` (`page.tsx` lines
477-492): each tier takes the saved entry for its id (`?? []`), and the
bank takes exactly the current items whose ids appear in no loaded tier,
in catalog order. -/
def handleLoadList (tiers : List Tier) (items : List Item) (data : Containers) : Containers :=
  let loadedItemIds := (tiers.map fun tier => getD data tier.id).flatten
  let newContainers := tiers.map fun tier => (tier.id, getD data tier.id)
  let bankItems := (items.filter fun item => decide (item.id ∉ loadedItemIds)).map Item.id
  newContainers ++ [(BANK_ID, bankItems)]

/-- Drag-session state: the `activeId` of the item being dragged
(`none` = Idle, `some` = Dragging) together with the containers state. -/
structure DragState where
  activeId : Option String
  containers : Containers
deriving DecidableEq

/-- The `handleDragStart` handler: record the dragged item id. -/
def handleDragStart (s : DragState) (activeId : String) : DragState :=
  { s with activeId := some activeId }

/-- The full `handleDragEnd` handler on the drag-session state: the
active id is always cleared (`setActiveId(null)`), and the containers
are updated as by the move logic. -/
def handleDragEndSession (s : DragState) (active : String) (over : Option String) : DragState :=
  { activeId := none, containers := handleDragEnd s.containers active over }

section Lemmas

/-- Unfolding lemma: union of an empty object. -/
@[simp] theorem containerUnion_nil : containerUnion [] = [] := rfl

/-- Unfolding lemma: union of a cons. -/
@[simp] theorem containerUnion_cons (k : String) (v : List String) (m : Containers) :
    containerUnion ((k, v) :: m) = v ++ containerUnion m := rfl

/-- Union distributes over append of association lists. -/
theorem containerUnion_append (m1 m2 : Containers) :
    containerUnion (m1 ++ m2) = containerUnion m1 ++ containerUnion m2 := by
  simp [containerUnion]

/-- Splicing out a present element is inverse to re-consing it, as multisets. -/
theorem removeFirst_of_mem {l : List String} {x : String} (h : x ∈ l) :
    (l : Multiset String) = x ::ₘ (removeFirst l x : Multiset String) := by
  induction l with
  | nil => cases h
  | cons y ys ih =>
      by_cases hyx : y = x
      · subst hyx; simp [removeFirst]
      · have hx : x ∈ ys := by
          rcases List.mem_cons.mp h with h1 | h1
          · exact absurd h1.symm hyx
          · exact h1
        have := ih hx
        simp only [removeFirst, if_neg hyx]
        calc ((y :: ys : List String) : Multiset String)
            = y ::ₘ (ys : Multiset String) := by simp
          _ = y ::ₘ (x ::ₘ (removeFirst ys x : Multiset String)) := by rw [← this]
          _ = x ::ₘ (y ::ₘ (removeFirst ys x : Multiset String)) := Multiset.cons_swap y x _
          _ = x ::ₘ ((y :: removeFirst ys x : List String) : Multiset String) := by simp

/-- Splicing the last element out when it occurs nowhere earlier. -/
theorem removeFirst_append_last {l : List String} {x : String} (h : x ∉ l) :
    removeFirst (l ++ [x]) x = l := by
  induction l with
  | nil => simp [removeFirst]
  | cons y ys ih =>
      have hyx : y ≠ x := fun e => h (e ▸ List.mem_cons_self y ys)
      have hx : x ∉ ys := fun hm => h (List.mem_cons_of_mem y hm)
      simp [removeFirst, hyx, ih hx]

/-- Unfolding lemma: keys of an empty object. -/
@[simp] theorem keysOf_nil : keysOf [] = [] := rfl

/-- Unfolding lemma: keys of a cons. -/
@[simp] theorem keysOf_cons (k : String) (v : List String) (m : Containers) :
    keysOf ((k, v) :: m) = k :: keysOf m := rfl

/-- Keys distribute over append of association lists. -/
theorem keysOf_append (m1 m2 : Containers) :
    keysOf (m1 ++ m2) = keysOf m1 ++ keysOf m2 := by
  simp [keysOf]

/-- Key membership agrees with the computed key sequence. -/
theorem hasKey_iff {m : Containers} {k : String} :
    hasKey m k = true ↔ k ∈ keysOf m := by
  induction m with
  | nil => simp [hasKey]
  | cons hd tl ih =>
      obtain ⟨k', v'⟩ := hd
      by_cases hk : k' = k
      · subst hk; simp [hasKey]
      · simp [hasKey, hk, Ne.symm hk, ih]

/-- A missing key reads as the empty array. -/
theorem getD_eq_nil_of_not_hasKey {m : Containers} {k : String} (h : hasKey m k = false) :
    getD m k = [] := by
  induction m with
  | nil => rfl
  | cons hd tl ih =>
      obtain ⟨k', v'⟩ := hd
      simp only [hasKey, Bool.or_eq_false_iff, decide_eq_false_iff_not] at h
      simp [getD, h.1, ih h.2]

/-- Assignment to a missing key appends the pair at the end. -/
theorem setKey_of_not_hasKey {m : Containers} {k : String} (v : List String)
    (h : hasKey m k = false) : setKey m k v = m ++ [(k, v)] := by
  induction m with
  | nil => rfl
  | cons hd tl ih =>
      obtain ⟨k', v'⟩ := hd
      simp only [hasKey, Bool.or_eq_false_iff, decide_eq_false_iff_not] at h
      simp [setKey, h.1, ih h.2]

/-- Reading back an assigned key returns the assigned value. -/
theorem getD_setKey_self (m : Containers) (k : String) (v : List String) :
    getD (setKey m k v) k = v := by
  induction m with
  | nil => simp [setKey, getD]
  | cons hd tl ih =>
      obtain ⟨k', v'⟩ := hd
      by_cases hk : k' = k
      · subst hk; simp [setKey, getD]
      · simp [setKey, getD, hk, ih]

/-- Assignment leaves every other key unchanged. -/
theorem getD_setKey_ne {m : Containers} {k k' : String} (v : List String) (h : k' ≠ k) :
    getD (setKey m k v) k' = getD m k' := by
  induction m with
  | nil => simp [setKey, getD, Ne.symm h]
  | cons hd tl ih =>
      obtain ⟨k0, v0⟩ := hd
      by_cases hk : k0 = k
      · subst hk; simp [setKey, getD, Ne.symm h]
      · by_cases hk' : k0 = k'
        · subst hk'; simp [setKey, getD, hk]
        · simp [setKey, getD, hk, hk', ih]

/-- Key sequence after an assignment. -/
theorem keysOf_setKey (m : Containers) (k : String) (v : List String) :
    keysOf (setKey m k v) = if hasKey m k then keysOf m else keysOf m ++ [k] := by
  induction m with
  | nil => simp [setKey, keysOf, hasKey]
  | cons hd tl ih =>
      obtain ⟨k', v'⟩ := hd
      by_cases hk : k' = k
      · subst hk; simp [setKey, keysOf, hasKey]
      · by_cases htl : hasKey tl k
        · simp [setKey, hk, hasKey, ih, htl]
        · simp [setKey, hk, hasKey, ih, htl]

/-- Two successive assignments to the same key collapse to the second. -/
theorem setKey_setKey (m : Containers) (k : String) (v w : List String) :
    setKey (setKey m k v) k w = setKey m k w := by
  induction m with
  | nil => simp [setKey]
  | cons hd tl ih =>
      obtain ⟨k', v'⟩ := hd
      by_cases hk : k' = k
      · subst hk; simp [setKey]
      · simp [setKey, hk, ih]

/-- Re-assigning the value a present key already holds is a no-op. -/
theorem setKey_getD_self {m : Containers} {k : String} (h : hasKey m k = true) :
    setKey m k (getD m k) = m := by
  induction m with
  | nil => simp [hasKey] at h
  | cons hd tl ih =>
      obtain ⟨k', v'⟩ := hd
      by_cases hk : k' = k
      · subst hk; simp [setKey, getD]
      · simp only [hasKey, Bool.or_eq_true, decide_eq_true_iff] at h
        rcases h with h | h
        · exact absurd h hk
        · simp [setKey, getD, hk, ih h]

/-- Multiset accounting for an assignment to a present key: the union
trades the old value of the key for the new one. -/
theorem union_setKey {m : Containers} {k : String} (v : List String) (h : hasKey m k = true) :
    (containerUnion (setKey m k v) : Multiset String) + (getD m k : Multiset String)
      = (v : Multiset String) + (containerUnion m : Multiset String) := by
  induction m with
  | nil => simp [hasKey] at h
  | cons hd tl ih =>
      obtain ⟨k', v'⟩ := hd
      by_cases hk : k' = k
      · subst hk
        have hs : setKey ((k', v') :: tl) k' v = (k', v) :: tl := by simp [setKey]
        have hg : getD ((k', v') :: tl) k' = v' := by simp [getD]
        rw [hs, hg, containerUnion_cons, containerUnion_cons]
        have e1 : ((v ++ containerUnion tl : List String) : Multiset String)
            = (v : Multiset String) + (containerUnion tl : Multiset String) := by simp
        have e2 : ((v' ++ containerUnion tl : List String) : Multiset String)
            = (v' : Multiset String) + (containerUnion tl : Multiset String) := by simp
        rw [e1, e2]
        abel
      · simp only [hasKey, Bool.or_eq_true, decide_eq_true_iff] at h
        rcases h with h | h
        · exact absurd h hk
        · have hs : setKey ((k', v') :: tl) k v = (k', v') :: setKey tl k v := by
            simp [setKey, hk]
          have hg : getD ((k', v') :: tl) k = getD tl k := by simp [getD, hk]
          rw [hs, hg, containerUnion_cons, containerUnion_cons]
          have e1 : ((v' ++ containerUnion (setKey tl k v) : List String) : Multiset String)
              = (v' : Multiset String) + (containerUnion (setKey tl k v) : Multiset String) := by
            simp
          have e2 : ((v' ++ containerUnion tl : List String) : Multiset String)
              = (v' : Multiset String) + (containerUnion tl : Multiset String) := by simp
          rw [e1, e2]
          have hx := ih h
          calc (v' : Multiset String) + (containerUnion (setKey tl k v) : Multiset String)
                + (getD tl k : Multiset String)
              = (v' : Multiset String) + ((containerUnion (setKey tl k v) : Multiset String)
                + (getD tl k : Multiset String)) := by abel
            _ = (v' : Multiset String) + ((v : Multiset String)
                + (containerUnion tl : Multiset String)) := by rw [hx]
            _ = (v : Multiset String) + ((v' : Multiset String)
                + (containerUnion tl : Multiset String)) := by abel

/-- A successful container lookup means the item occurs in the union. -/
theorem findContainer_mem {m : Containers} {a k : String}
    (h : findContainer m a = some k) : a ∈ containerUnion m := by
  induction m with
  | nil => simp [findContainer] at h
  | cons hd tl ih =>
      obtain ⟨k', v'⟩ := hd
      by_cases hv : a ∈ v'
      · simp [hv]
      · simp only [findContainer, if_neg hv] at h
        simp [List.mem_append, ih h]

/-- A successful container lookup returns one of the object's keys. -/
theorem findContainer_hasKey {m : Containers} {a k : String}
    (h : findContainer m a = some k) : hasKey m k = true := by
  induction m with
  | nil => simp [findContainer] at h
  | cons hd tl ih =>
      obtain ⟨k', v'⟩ := hd
      by_cases hv : a ∈ v'
      · simp only [findContainer, if_pos hv, Option.some.injEq] at h
        simp [hasKey, h]
      · simp only [findContainer, if_neg hv] at h
        simp [hasKey, ih h]

/-- The container lookup fails exactly when the item is loaded nowhere. -/
theorem findContainer_eq_none_iff {m : Containers} {a : String} :
    findContainer m a = none ↔ a ∉ containerUnion m := by
  induction m with
  | nil => simp [findContainer]
  | cons hd tl ih =>
      obtain ⟨k', v'⟩ := hd
      by_cases hv : a ∈ v'
      · simp [findContainer, hv]
      · simp [findContainer, hv, ih]

/-- An item occurring under a key means the key is present. -/
theorem hasKey_of_mem_getD {m : Containers} {k a : String}
    (h : a ∈ getD m k) : hasKey m k = true := by
  induction m with
  | nil => simp [getD] at h
  | cons hd tl ih =>
      obtain ⟨k', v'⟩ := hd
      by_cases hk : k' = k
      · simp [hasKey, hk]
      · simp only [getD, if_neg hk] at h
        simp [hasKey, ih h]

/-- The defensive scan does not change the key sequence. -/
theorem keysOf_defensiveScan (m : Containers) (a : String) :
    keysOf (defensiveScan m a) = keysOf m := by
  induction m with
  | nil => rfl
  | cons hd tl ih =>
      obtain ⟨k', v'⟩ := hd
      by_cases hv : a ∈ v'
      · simp [defensiveScan, hv]
      · simp [defensiveScan, hv, ih]

/-- The defensive scan removes exactly one occurrence of a present item. -/
theorem union_defensiveScan {m : Containers} {a : String} (h : a ∈ containerUnion m) :
    (containerUnion m : Multiset String)
      = a ::ₘ (containerUnion (defensiveScan m a) : Multiset String) := by
  induction m with
  | nil => simp [containerUnion] at h
  | cons hd tl ih =>
      obtain ⟨k', v'⟩ := hd
      by_cases hv : a ∈ v'
      · have hs : defensiveScan ((k', v') :: tl) a = (k', removeFirst v' a) :: tl := by
          simp [defensiveScan, hv]
        rw [hs, containerUnion_cons, containerUnion_cons]
        have e1 : ((v' ++ containerUnion tl : List String) : Multiset String)
            = (v' : Multiset String) + (containerUnion tl : Multiset String) := by simp
        have e2 : ((removeFirst v' a ++ containerUnion tl : List String) : Multiset String)
            = (removeFirst v' a : Multiset String) + (containerUnion tl : Multiset String) := by
          simp
        rw [e1, e2, removeFirst_of_mem hv, Multiset.cons_add]
      · have htl : a ∈ containerUnion tl := by
          rcases List.mem_append.mp (by simpa using h) with h1 | h1
          · exact absurd h1 hv
          · exact h1
        have hs : defensiveScan ((k', v') :: tl) a = (k', v') :: defensiveScan tl a := by
          simp [defensiveScan, hv]
        rw [hs, containerUnion_cons, containerUnion_cons]
        have e1 : ((v' ++ containerUnion tl : List String) : Multiset String)
            = (v' : Multiset String) + (containerUnion tl : Multiset String) := by simp
        have e2 : ((v' ++ containerUnion (defensiveScan tl a) : List String) : Multiset String)
            = (v' : Multiset String)
              + (containerUnion (defensiveScan tl a) : Multiset String) := by simp
        rw [e1, e2, ih htl, Multiset.add_cons]

/-- Unfolding of `handleDragEnd` on the main path: target present and
distinct from the dragged item, source container found, target id truthy. -/
theorem handleDragEnd_some_eq {m : Containers} {a overId src : String}
    (hao : a ≠ overId) (hfc : findContainer m a = some src) (hov : overId ≠ "") :
    handleDragEnd m a (some overId)
      = setKey (if a ∈ getD m src then setKey m src (removeFirst (getD m src) a)
            else defensiveScan m a) overId
          (getD (if a ∈ getD m src then setKey m src (removeFirst (getD m src) a)
            else defensiveScan m a) overId ++ [a]) := by
  simp [handleDragEnd, hao, hfc, hov]

/-- Pushing the dragged id onto a destination key adds exactly one
occurrence to the union, whether or not the key already exists. -/
theorem union_setKey_push (m : Containers) (k a : String) :
    (containerUnion (setKey m k (getD m k ++ [a])) : Multiset String)
      = (containerUnion m : Multiset String) + {a} := by
  by_cases h : hasKey m k
  · have h2 := union_setKey (m := m) (k := k) (getD m k ++ [a]) h
    have e : ((getD m k ++ [a] : List String) : Multiset String)
        = (getD m k : Multiset String) + {a} := rfl
    have h3 : (containerUnion (setKey m k (getD m k ++ [a])) : Multiset String)
          + (getD m k : Multiset String)
        = ((containerUnion m : Multiset String) + {a}) + (getD m k : Multiset String) := by
      rw [h2, e]; abel
    exact add_right_cancel h3
  · have hf : hasKey m k = false := by simpa using h
    rw [setKey_of_not_hasKey _ hf, containerUnion_append,
      getD_eq_nil_of_not_hasKey hf]
    rfl

/-- The drag-end handler never changes the multiset of placed item ids:
either the event is a no-op, or one occurrence of the dragged id is
removed from its source and one appended to the destination. -/
theorem union_handleDragEnd (m : Containers) (a : String) (o : Option String) :
    (containerUnion (handleDragEnd m a o) : Multiset String)
      = (containerUnion m : Multiset String) := by
  cases o with
  | none => rfl
  | some overId =>
      by_cases hao : a = overId
      · simp [handleDragEnd, hao]
      · cases hfc : findContainer m a with
        | none => simp [handleDragEnd, hao, hfc]
        | some src =>
            by_cases hov : overId = ""
            · simp [handleDragEnd, hao, hfc, hov]
            · rw [handleDragEnd_some_eq hao hfc hov, union_setKey_push]
              by_cases hmem : a ∈ getD m src
              · rw [if_pos hmem]
                have hk := hasKey_of_mem_getD hmem
                have h2 := union_setKey (m := m) (k := src) (removeFirst (getD m src) a) hk
                have e := removeFirst_of_mem hmem
                have h3 : (containerUnion (setKey m src (removeFirst (getD m src) a))
                      : Multiset String) + {a}
                      + (removeFirst (getD m src) a : Multiset String)
                    = (containerUnion m : Multiset String)
                      + (removeFirst (getD m src) a : Multiset String) := by
                  calc (containerUnion (setKey m src (removeFirst (getD m src) a))
                        : Multiset String) + {a}
                        + (removeFirst (getD m src) a : Multiset String)
                      = (containerUnion (setKey m src (removeFirst (getD m src) a))
                          : Multiset String)
                        + ({a} + (removeFirst (getD m src) a : Multiset String)) := by abel
                    _ = (containerUnion (setKey m src (removeFirst (getD m src) a))
                          : Multiset String) + (getD m src : Multiset String) := by
                        rw [Multiset.singleton_add, ← e]
                    _ = (removeFirst (getD m src) a : Multiset String)
                        + (containerUnion m : Multiset String) := h2
                    _ = (containerUnion m : Multiset String)
                        + (removeFirst (getD m src) a : Multiset String) := by abel
                exact add_right_cancel h3
              · rw [if_neg hmem]
                have hu := union_defensiveScan (findContainer_mem hfc)
                rw [hu, ← Multiset.singleton_add]
                abel

/-- The drag-end handler preserves key distinctness (it only updates a
present key or appends one absent key). -/
theorem keysOf_handleDragEnd_nodup {m : Containers} (a : String) (o : Option String)
    (h : (keysOf m).Nodup) : (keysOf (handleDragEnd m a o)).Nodup := by
  cases o with
  | none => exact h
  | some overId =>
      by_cases hao : a = overId
      · simpa [handleDragEnd, hao] using h
      · cases hfc : findContainer m a with
        | none => simpa [handleDragEnd, hao, hfc] using h
        | some src =>
            by_cases hov : overId = ""
            · simpa [handleDragEnd, hao, hfc, hov] using h
            · rw [handleDragEnd_some_eq hao hfc hov]
              have h1 : (keysOf (if a ∈ getD m src
                  then setKey m src (removeFirst (getD m src) a)
                  else defensiveScan m a)).Nodup := by
                by_cases hmem : a ∈ getD m src
                · rw [if_pos hmem, keysOf_setKey, if_pos (hasKey_of_mem_getD hmem)]
                  exact h
                · rw [if_neg hmem, keysOf_defensiveScan]
                  exact h
              rw [keysOf_setKey]
              by_cases hk : hasKey (if a ∈ getD m src
                  then setKey m src (removeFirst (getD m src) a)
                  else defensiveScan m a) overId
              · rw [if_pos hk]; exact h1
              · rw [if_neg hk]
                have hnm : overId ∉ keysOf (if a ∈ getD m src
                    then setKey m src (removeFirst (getD m src) a)
                    else defensiveScan m a) := fun hm => hk (hasKey_iff.mpr hm)
                exact List.Nodup.append h1 (List.nodup_singleton _)
                  (List.disjoint_singleton.mpr hnm)

/-- Key absence agrees with the computed key sequence. -/
theorem hasKey_eq_false_iff {m : Containers} {k : String} :
    hasKey m k = false ↔ k ∉ keysOf m := by
  rw [← Bool.not_eq_true, not_iff_not]
  exact hasKey_iff

/-- Lookup in an appended object reads the left part when it has the key. -/
theorem getD_append_left {m1 : Containers} (m2 : Containers) {k : String}
    (h : hasKey m1 k = true) : getD (m1 ++ m2) k = getD m1 k := by
  induction m1 with
  | nil => simp [hasKey] at h
  | cons hd tl ih =>
      obtain ⟨k', v'⟩ := hd
      by_cases hk : k' = k
      · simp [getD, hk]
      · simp only [hasKey, Bool.or_eq_true, decide_eq_true_iff] at h
        rcases h with h | h
        · exact absurd h hk
        · simp [getD, hk, ih h]

/-- Lookup in an appended object reads the right part when the left
part misses the key. -/
theorem getD_append_right {m1 : Containers} (m2 : Containers) {k : String}
    (h : hasKey m1 k = false) : getD (m1 ++ m2) k = getD m2 k := by
  induction m1 with
  | nil => simp
  | cons hd tl ih =>
      obtain ⟨k', v'⟩ := hd
      simp only [hasKey, Bool.or_eq_false_iff, decide_eq_false_iff_not] at h
      simp [getD, h.1, ih h.2]

/-- Keys of a per-tier constructed object are the tier ids. -/
theorem keysOf_mapTiers (tiers : List Tier) (f : Tier → List String) :
    keysOf (tiers.map fun t => (t.id, f t)) = tiers.map Tier.id := by
  simp [keysOf, List.map_map]

/-- Lookup in a per-tier constructed object, assuming distinct tier ids. -/
theorem getD_mapTiers {tiers : List Tier} {t : Tier} (f : Tier → List String)
    (hnd : (tiers.map Tier.id).Nodup) (ht : t ∈ tiers) :
    getD (tiers.map fun t' => (t'.id, f t')) t.id = f t := by
  induction tiers with
  | nil => cases ht
  | cons t' ts ih =>
      simp only [List.map_cons, List.nodup_cons] at hnd
      by_cases he : t'.id = t.id
      · rcases List.mem_cons.mp ht with h1 | h1
        · subst h1; simp [getD]
        · exact absurd (he ▸ List.mem_map_of_mem Tier.id h1) hnd.1
      · have h1 : t ∈ ts := by
          rcases List.mem_cons.mp ht with h2 | h2
          · exact absurd (h2 ▸ rfl) he
          · exact h2
        simp [getD, he, ih hnd.2 h1]

/-- Reset produces the tier ids followed by the bank as keys. -/
theorem keysOf_resetContainersFor (tiers : List Tier) (items : List Item) :
    keysOf (resetContainersFor tiers items) = tiers.map Tier.id ++ [BANK_ID] := by
  simp [resetContainersFor, keysOf_append, keysOf_mapTiers, keysOf]

/-- After a reset every tier container is empty. -/
theorem getD_resetContainersFor_tier {tiers : List Tier} {t : Tier} (items : List Item)
    (ht : t ∈ tiers) : getD (resetContainersFor tiers items) t.id = [] := by
  induction tiers with
  | nil => cases ht
  | cons t' ts ih =>
      by_cases he : t'.id = t.id
      · simp [resetContainersFor, getD, he]
      · have h1 : t ∈ ts := by
          rcases List.mem_cons.mp ht with h2 | h2
          · exact absurd (h2 ▸ rfl) he
          · exact h2
        simp only [resetContainersFor, List.map_cons, List.cons_append, getD, if_neg he]
        exact ih h1

/-- After a reset the bank holds exactly the catalog ids in order. -/
theorem getD_resetContainersFor_bank {tiers : List Tier} (items : List Item)
    (hb : BANK_ID ∉ tiers.map Tier.id) :
    getD (resetContainersFor tiers items) BANK_ID = items.map Item.id := by
  have hf : hasKey (tiers.map fun t => (t.id, ([] : List String))) BANK_ID = false := by
    rw [hasKey_eq_false_iff, keysOf_mapTiers]
    exact hb
  rw [resetContainersFor, getD_append_right _ hf]
  simp [getD]

/-- Flattening a list of empty sequences gives the empty sequence. -/
theorem flatten_map_nil {α : Type} (l : List α) :
    ((l.map fun _ => ([] : List String)).flatten) = [] := by
  induction l with
  | nil => rfl
  | cons x xs ih =>
      rw [List.map_cons, List.flatten_cons, List.nil_append]
      exact ih

/-- The union after a reset is exactly the catalog id sequence. -/
theorem containerUnion_resetContainersFor (tiers : List Tier) (items : List Item) :
    containerUnion (resetContainersFor tiers items) = items.map Item.id := by
  rw [resetContainersFor, containerUnion_append]
  have h1 : containerUnion (tiers.map fun t => (t.id, ([] : List String))) = [] := by
    rw [containerUnion, List.map_map]
    exact flatten_map_nil tiers
  have h2 : containerUnion [(BANK_ID, items.map Item.id)] = items.map Item.id := by
    simp [containerUnion]
  rw [h1, h2, List.nil_append]

/-- The save projection reads back every non-bank key unchanged. -/
theorem getD_handleSaveList {m : Containers} {k : String} (hk : k ≠ BANK_ID) :
    getD (handleSaveList m) k = getD m k := by
  induction m with
  | nil => rfl
  | cons hd tl ih =>
      obtain ⟨k', v'⟩ := hd
      have hfil : handleSaveList ((k', v') :: tl)
          = if k' = BANK_ID then handleSaveList tl else (k', v') :: handleSaveList tl := by
        by_cases hbk : k' = BANK_ID
        · simp [handleSaveList, hbk]
        · simp [handleSaveList, hbk]
      by_cases hbk : k' = BANK_ID
      · subst hbk
        have hne : ¬BANK_ID = k := fun e => hk e.symm
        rw [hfil, if_pos rfl, ih]
        simp [getD, hne]
      · rw [hfil, if_neg hbk]
        by_cases hkk : k' = k
        · simp [getD, hkk]
        · simp [getD, hkk, ih]

/-- The save projection is a sublist of the container object. -/
theorem handleSaveList_sublist (m : Containers) :
    List.Sublist (handleSaveList m) m :=
  List.filter_sublist m

/-- A sublist of an association list has a union that is a sublist of
the full union. -/
theorem containerUnion_sublist {m' m : Containers} (h : List.Sublist m' m) :
    List.Sublist (containerUnion m') (containerUnion m) := by
  induction h with
  | slnil => exact List.Sublist.refl _
  | cons hd hs ih =>
      obtain ⟨k, v⟩ := hd
      rw [containerUnion_cons]
      exact List.Sublist.trans ih (List.sublist_append_right v _)
  | cons₂ hd hs ih =>
      obtain ⟨k, v⟩ := hd
      rw [containerUnion_cons, containerUnion_cons]
      exact List.Sublist.append_left ih v

/-- Map congruence over the members of a list. -/
theorem map_congr_mem {α β : Type} {l : List α} {f g : α → β}
    (h : ∀ a ∈ l, f a = g a) : l.map f = l.map g := by
  induction l with
  | nil => rfl
  | cons x xs ih =>
      rw [List.map_cons, List.map_cons, h x (List.mem_cons_self x xs),
        ih fun a ha => h a (List.mem_cons_of_mem x ha)]

/-- The multiset of a flattened list of lists is the sum of the parts. -/
theorem coe_flatten (L : List (List String)) :
    ((L.flatten : List String) : Multiset String)
      = (L.map Multiset.ofList).sum := by
  induction L with
  | nil => rfl
  | cons l ls ih =>
      have e : ((l ++ ls.flatten : List String) : Multiset String)
          = (l : Multiset String) + ((ls.flatten : List String) : Multiset String) := rfl
      simp only [List.flatten_cons, e, ih, List.map_cons, List.sum_cons]

/-- Reading a duplicate-free selection of keys collects a sub-multiset
of the union, provided the object's keys are duplicate-free. -/
theorem tierSum_le_union (m : Containers) :
    (keysOf m).Nodup → ∀ ts : List String, ts.Nodup →
      (((ts.map fun t => getD m t).flatten : List String) : Multiset String)
        ≤ (containerUnion m : Multiset String) := by
  induction m with
  | nil =>
      intro _ ts _
      have e : (ts.map fun t => getD ([] : Containers) t)
          = ts.map fun _ => ([] : List String) := by simp [getD]
      rw [e, flatten_map_nil]
      simp
  | cons hd tl ih =>
      intro hknd ts htnd
      obtain ⟨k, v⟩ := hd
      rw [keysOf_cons, List.nodup_cons] at hknd
      by_cases hk : k ∈ ts
      · have hperm : List.Perm ts (k :: ts.erase k) := List.perm_cons_erase hk
        rw [coe_flatten]
        have hpm : List.Perm
            ((ts.map fun t => getD ((k, v) :: tl) t).map Multiset.ofList)
            (((k :: ts.erase k).map fun t => getD ((k, v) :: tl) t).map Multiset.ofList) :=
          (hperm.map _).map _
        rw [hpm.sum_eq]
        have hh : getD ((k, v) :: tl) k = v := by simp [getD]
        have hcong : ((ts.erase k).map fun t => getD ((k, v) :: tl) t)
            = (ts.erase k).map fun t => getD tl t := by
          refine map_congr_mem fun t htm => ?_
          have hne : t ≠ k := (htnd.mem_erase_iff.mp htm).1
          simp [getD, Ne.symm hne]
        simp only [List.map_cons, List.sum_cons, hh, hcong]
        have ihx := ih hknd.2 (ts.erase k) (htnd.erase k)
        rw [coe_flatten] at ihx
        rw [containerUnion_cons]
        have e2 : ((v ++ containerUnion tl : List String) : Multiset String)
            = (v : Multiset String) + (containerUnion tl : Multiset String) := rfl
        rw [e2]
        exact add_le_add_left ihx _
      · have hcong : (ts.map fun t => getD ((k, v) :: tl) t)
            = ts.map fun t => getD tl t := by
          refine map_congr_mem fun t htm => ?_
          have hne : ¬k = t := fun e => hk (e ▸ htm)
          simp [getD, hne]
        rw [hcong]
        refine le_trans (ih hknd.2 ts htnd) ?_
        rw [containerUnion_cons]
        have e2 : ((v ++ containerUnion tl : List String) : Multiset String)
            = (v : Multiset String) + (containerUnion tl : Multiset String) := rfl
        rw [e2]
        exact le_add_self

/-- Unfolding of the load handler into its two key blocks. -/
theorem handleLoadList_eq (tiers : List Tier) (items : List Item) (data : Containers) :
    handleLoadList tiers items data
      = (tiers.map fun tier => (tier.id, getD data tier.id))
        ++ [(BANK_ID, (items.filter fun item =>
              decide (item.id ∉ (tiers.map fun tier => getD data tier.id).flatten)).map
                Item.id)] := rfl

/-- Keys after a load are the tier ids followed by the bank. -/
theorem keysOf_handleLoadList (tiers : List Tier) (items : List Item) (data : Containers) :
    keysOf (handleLoadList tiers items data) = tiers.map Tier.id ++ [BANK_ID] := by
  rw [handleLoadList_eq, keysOf_append, keysOf_mapTiers]
  rfl

/-- After a load, each tier container holds the saved entry for its id. -/
theorem getD_handleLoadList_tier {tiers : List Tier} {t : Tier}
    (items : List Item) (data : Containers)
    (hnd : (tiers.map Tier.id).Nodup) (ht : t ∈ tiers) :
    getD (handleLoadList tiers items data) t.id = getD data t.id := by
  have hkey : hasKey (tiers.map fun tier => (tier.id, getD data tier.id)) t.id = true := by
    rw [hasKey_iff, keysOf_mapTiers]
    exact List.mem_map_of_mem Tier.id ht
  rw [handleLoadList_eq, getD_append_left _ hkey, getD_mapTiers _ hnd ht]

/-- After a load, the bank holds the filtered catalog ids. -/
theorem getD_handleLoadList_bank (tiers : List Tier) (items : List Item) (data : Containers)
    (hb : BANK_ID ∉ tiers.map Tier.id) :
    getD (handleLoadList tiers items data) BANK_ID
      = (items.filter fun item =>
          decide (item.id ∉ (tiers.map fun tier => getD data tier.id).flatten)).map Item.id := by
  have hkey : hasKey (tiers.map fun tier => (tier.id, getD data tier.id)) BANK_ID = false := by
    rw [hasKey_eq_false_iff, keysOf_mapTiers]
    exact hb
  rw [handleLoadList_eq, getD_append_right _ hkey]
  simp [getD]

/-- Membership in an id-filtered catalog projection. -/
theorem mem_filter_map_id {items : List Item} {L : List String} {x : String} :
    (x ∈ (items.filter fun item => decide (item.id ∉ L)).map Item.id)
      ↔ x ∈ items.map Item.id ∧ x ∉ L := by
  constructor
  · intro hx
    rcases List.mem_map.mp hx with ⟨i, hi, rfl⟩
    rcases List.mem_filter.mp hi with ⟨him, hp⟩
    exact ⟨List.mem_map_of_mem _ him, by simpa using hp⟩
  · rintro ⟨hx, hnx⟩
    rcases List.mem_map.mp hx with ⟨i, hi, rfl⟩
    exact List.mem_map_of_mem _ (List.mem_filter.mpr ⟨hi, by simpa using hnx⟩)

/-- Membership in the flattened loaded tier contents. -/
theorem mem_tierFlatten {tiers : List Tier} {data : Containers} {x : String} :
    (x ∈ (tiers.map fun tier => getD data tier.id).flatten)
      ↔ ∃ t ∈ tiers, x ∈ getD data t.id := by
  constructor
  · intro h
    rcases List.mem_flatten.mp h with ⟨l, hl, hx⟩
    rcases List.mem_map.mp hl with ⟨t, ht, rfl⟩
    exact ⟨t, ht, hx⟩
  · rintro ⟨t, ht, hx⟩
    exact List.mem_flatten.mpr ⟨getD data t.id, List.mem_map_of_mem _ ht, hx⟩

/-- A load rebuilds a union that is a permutation of the catalog ids,
provided the loaded tier contents are duplicate-free and drawn from the
catalog. -/
theorem union_handleLoadList (tiers : List Tier) (items : List Item) (data : Containers)
    (hind : (items.map Item.id).Nodup)
    (hLnd : ((tiers.map fun tier => getD data tier.id).flatten).Nodup)
    (hLsub : ∀ x ∈ (tiers.map fun tier => getD data tier.id).flatten, x ∈ items.map Item.id) :
    List.Perm (containerUnion (handleLoadList tiers items data)) (items.map Item.id) := by
  have hu : containerUnion (handleLoadList tiers items data)
      = (tiers.map fun tier => getD data tier.id).flatten
        ++ (items.filter fun item =>
            decide (item.id ∉ (tiers.map fun tier => getD data tier.id).flatten)).map
              Item.id := by
    rw [handleLoadList_eq, containerUnion_append]
    have h1 : containerUnion (tiers.map fun tier => (tier.id, getD data tier.id))
        = (tiers.map fun tier => getD data tier.id).flatten := by
      rw [containerUnion, List.map_map]
      rfl
    have h2 : containerUnion [(BANK_ID, (items.filter fun item =>
          decide (item.id ∉ (tiers.map fun tier => getD data tier.id).flatten)).map Item.id)]
        = (items.filter fun item =>
            decide (item.id ∉ (tiers.map fun tier => getD data tier.id).flatten)).map
              Item.id := by
      simp [containerUnion]
    rw [h1, h2]
  rw [hu]
  have hbnd : ((items.filter fun item =>
      decide (item.id ∉ (tiers.map fun tier => getD data tier.id).flatten)).map
        Item.id).Nodup :=
    hind.sublist ((List.filter_sublist items).map Item.id)
  have hdisj : List.Disjoint ((tiers.map fun tier => getD data tier.id).flatten)
      ((items.filter fun item =>
        decide (item.id ∉ (tiers.map fun tier => getD data tier.id).flatten)).map Item.id) := by
    intro x hxL hxB
    exact (mem_filter_map_id.mp hxB).2 hxL
  rw [List.perm_ext_iff_of_nodup (hLnd.append hbnd hdisj) hind]
  intro x
  constructor
  · intro hx
    rcases List.mem_append.mp hx with hx | hx
    · exact hLsub x hx
    · exact (mem_filter_map_id.mp hx).1
  · intro hx
    by_cases hxL : x ∈ (tiers.map fun tier => getD data tier.id).flatten
    · exact List.mem_append.mpr (Or.inl hxL)
    · exact List.mem_append.mpr (Or.inr (mem_filter_map_id.mpr ⟨hx, hxL⟩))

end Lemmas

/-- Container ids currently holding a given item id, in key order. -/
def containersHolding (m : Containers) (x : String) : List String :=
  (m.filter fun kv => decide (x ∈ kv.2)).map Prod.fst

/-- Collaborator environment of the page: the fixed tier set and the
item catalog the server returns for each template id (on success). -/
structure Env where
  tiers : List Tier
  catalogOf : String → List Item

/-- Page state relevant to the arrangement engine: the selected template,
the loaded item catalog, the container store, and the saved arrangements
held by the persistence collaborator (keyed by owning template id). -/
structure AppState where
  selectedTemplate : Option String
  items : List Item
  containers : Containers
  savedLists : List (String × Containers)
deriving DecidableEq

/-- Item catalog the binding layer installs for a selection (static
fallback when no template is selected). -/
def envItems (env : Env) : Option String → List Item
  | none => initialItemsData
  | some tid => env.catalogOf tid

/-- Initial page state: static items, empty tiers, full bank, nothing
selected and nothing saved. -/
def initialState (env : Env) : AppState :=
  { selectedTemplate := none
  , items := initialItemsData
  , containers := resetContainersFor env.tiers initialItemsData
  , savedLists := [] }

/-- Public operations of the arrangement engine whose fetches succeed:
drag-end moves, template switches (including deselection), saving the
current arrangement, and loading a saved arrangement fetched for the
currently selected template. -/
inductive Step (env : Env) : AppState → AppState → Prop where
  | dragEnd (s : AppState) (activeId : String) (over : Option String) :
      Step env s { s with containers := handleDragEnd s.containers activeId over }
  | selectTemplate (s : AppState) (t : Option String) :
      Step env s
        { selectedTemplate := t
        , items := (loadItemsForTemplate env.tiers
            (t.map fun tid => FetchOutcome.success (env.catalogOf tid))).1
        , containers := (loadItemsForTemplate env.tiers
            (t.map fun tid => FetchOutcome.success (env.catalogOf tid))).2
        , savedLists := s.savedLists }
  | saveList (s : AppState) (tid : String) (hsel : s.selectedTemplate = some tid) :
      Step env s { s with savedLists := s.savedLists ++ [(tid, handleSaveList s.containers)] }
  | loadList (s : AppState) (tid : String) (data : Containers)
      (hsel : s.selectedTemplate = some tid) (hmem : (tid, data) ∈ s.savedLists) :
      Step env s { s with containers := handleLoadList env.tiers s.items data }

/-- Template selection whose item-catalog fetch fails: the items are
cleared and the board is reset with an empty bank. -/
inductive FailStep (env : Env) : AppState → AppState → Prop where
  | selectTemplateFail (s : AppState) (tid : String) :
      FailStep env s
        { selectedTemplate := some tid
        , items := (loadItemsForTemplate env.tiers (some FetchOutcome.failure)).1
        , containers := (loadItemsForTemplate env.tiers (some FetchOutcome.failure)).2
        , savedLists := s.savedLists }

/-- States reachable from the initial state by the public operations,
with fetch failures possible. -/
inductive Reachable (env : Env) : AppState → Prop where
  | init : Reachable env (initialState env)
  | ok {s s' : AppState} : Reachable env s → Step env s s' → Reachable env s'
  | fail {s s' : AppState} : Reachable env s → FailStep env s s' → Reachable env s'

/-- States reachable when every item-catalog fetch succeeds. -/
inductive ReachableOk (env : Env) : AppState → Prop where
  | init : ReachableOk env (initialState env)
  | ok {s s' : AppState} : ReachableOk env s → Step env s s' → ReachableOk env s'

/-- Well-formed collaborator data: distinct tier ids, the reserved bank
id is not a tier id, and server catalogs carry distinct item ids. -/
structure WFEnv (env : Env) : Prop where
  tiersNodup : (env.tiers.map Tier.id).Nodup
  bankNotTier : BANK_ID ∉ env.tiers.map Tier.id
  catalogNodup : ∀ tid, ((env.catalogOf tid).map Item.id).Nodup

/-- Inductive invariant of the page state: distinct container keys, the
items agree with the catalog for the current selection, the placed ids
are a permutation of the catalog ids, and each saved arrangement has
distinct keys and duplicate-free contents drawn from its template's
catalog. -/
def Inv (env : Env) (s : AppState) : Prop :=
  (keysOf s.containers).Nodup
  ∧ s.items = envItems env s.selectedTemplate
  ∧ List.Perm (containerUnion s.containers) (s.items.map Item.id)
  ∧ ∀ p ∈ s.savedLists,
      (keysOf p.2).Nodup
      ∧ (containerUnion p.2).Nodup
      ∧ ∀ x ∈ containerUnion p.2, x ∈ (env.catalogOf p.1).map Item.id

section InvariantLemmas

/-- The static fallback items have distinct ids. -/
theorem initialItems_id_nodup : (initialItemsData.map Item.id).Nodup := by decide

/-- Under a well-formed environment the installed catalog has distinct ids. -/
theorem envItems_id_nodup {env : Env} (hwf : WFEnv env) (t : Option String) :
    ((envItems env t).map Item.id).Nodup := by
  cases t with
  | none => exact initialItems_id_nodup
  | some tid => exact hwf.catalogNodup tid

/-- Under a well-formed environment the reset keys are distinct. -/
theorem keysOf_reset_nodup {env : Env} (hwf : WFEnv env) (items : List Item) :
    (keysOf (resetContainersFor env.tiers items)).Nodup := by
  rw [keysOf_resetContainersFor]
  exact List.Nodup.append hwf.tiersNodup (List.nodup_singleton _)
    (List.disjoint_singleton.mpr hwf.bankNotTier)

/-- An id placed nowhere is held by no container. -/
theorem containersHolding_eq_nil {m : Containers} {x : String}
    (h : x ∉ containerUnion m) : containersHolding m x = [] := by
  induction m with
  | nil => rfl
  | cons hd tl ih =>
      obtain ⟨k, v⟩ := hd
      have hv : x ∉ v := fun hm => h (by simp [hm])
      have htl : x ∉ containerUnion tl := fun hm => h (by simp [hm])
      simp [containersHolding, hv, List.filter_cons]
      have := ih htl
      rw [containersHolding] at this
      simpa using this

/-- With a duplicate-free union, a placed id is held by exactly one
container. -/
theorem containersHolding_length_one {m : Containers} {x : String}
    (hnd : (containerUnion m).Nodup) (hx : x ∈ containerUnion m) :
    (containersHolding m x).length = 1 := by
  induction m with
  | nil => simp [containerUnion] at hx
  | cons hd tl ih =>
      obtain ⟨k, v⟩ := hd
      rw [containerUnion_cons] at hnd hx
      rcases List.nodup_append.mp hnd with ⟨hvnd, htlnd, hdis⟩
      by_cases hv : x ∈ v
      · have htl : x ∉ containerUnion tl := hdis hv
        have hnil := containersHolding_eq_nil htl
        simp [containersHolding, hv, List.filter_cons]
        rw [containersHolding] at hnil
        simpa using congrArg List.length hnil
      · have htl : x ∈ containerUnion tl := by
          rcases List.mem_append.mp hx with h1 | h1
          · exact absurd h1 hv
          · exact h1
        have := ih htlnd htl
        simp [containersHolding, hv, List.filter_cons]
        rw [containersHolding] at this
        simpa using this

end InvariantLemmas

/-- The initial state satisfies the inductive invariant. -/
theorem initialState_inv {env : Env} (hwf : WFEnv env) : Inv env (initialState env) := by
  refine ⟨keysOf_reset_nodup hwf _, rfl, ?_, ?_⟩
  · show List.Perm (containerUnion (resetContainersFor env.tiers initialItemsData))
      (initialItemsData.map Item.id)
    rw [containerUnion_resetContainersFor]
  · intro p hp
    cases hp

/-- Every successful public operation preserves the inductive invariant. -/
theorem step_inv {env : Env} (hwf : WFEnv env) {s s' : AppState}
    (hinv : Inv env s) (hstep : Step env s s') : Inv env s' := by
  obtain ⟨hkeys, hitems, hperm, hsaved⟩ := hinv
  have hitemsnd : (s.items.map Item.id).Nodup := by
    rw [hitems]; exact envItems_id_nodup hwf _
  cases hstep with
  | dragEnd activeId over =>
      refine ⟨keysOf_handleDragEnd_nodup _ _ hkeys, hitems, ?_, hsaved⟩
      have h1 := union_handleDragEnd s.containers activeId over
      exact (Multiset.coe_eq_coe.mp h1).trans hperm
  | selectTemplate t =>
      have hload : loadItemsForTemplate env.tiers
            (t.map fun tid => FetchOutcome.success (env.catalogOf tid))
          = (envItems env t, resetContainersFor env.tiers (envItems env t)) := by
        cases t <;> rfl
      refine ⟨?_, ?_, ?_, hsaved⟩
      · show (keysOf (loadItemsForTemplate env.tiers
            (t.map fun tid => FetchOutcome.success (env.catalogOf tid))).2).Nodup
        rw [hload]
        exact keysOf_reset_nodup hwf _
      · show (loadItemsForTemplate env.tiers
            (t.map fun tid => FetchOutcome.success (env.catalogOf tid))).1 = envItems env t
        rw [hload]
      · show List.Perm (containerUnion (loadItemsForTemplate env.tiers
            (t.map fun tid => FetchOutcome.success (env.catalogOf tid))).2)
          (((loadItemsForTemplate env.tiers
            (t.map fun tid => FetchOutcome.success (env.catalogOf tid))).1).map Item.id)
        rw [hload]
        show List.Perm (containerUnion (resetContainersFor env.tiers (envItems env t)))
          ((envItems env t).map Item.id)
        rw [containerUnion_resetContainersFor]
  | saveList tid hsel =>
      refine ⟨hkeys, hitems, hperm, ?_⟩
      intro p hp
      rcases List.mem_append.mp hp with hp | hp
      · exact hsaved p hp
      · have hpe : p = (tid, handleSaveList s.containers) := by simpa using hp
        subst hpe
        have hund : (containerUnion s.containers).Nodup := hperm.nodup_iff.mpr hitemsnd
        refine ⟨?_, ?_, ?_⟩
        · exact hkeys.sublist ((handleSaveList_sublist s.containers).map Prod.fst)
        · exact hund.sublist (containerUnion_sublist (handleSaveList_sublist s.containers))
        · intro x hx
          have hx1 : x ∈ containerUnion s.containers :=
            (containerUnion_sublist (handleSaveList_sublist s.containers)).subset hx
          have hx2 : x ∈ s.items.map Item.id := hperm.mem_iff.mp hx1
          rw [hitems, hsel] at hx2
          exact hx2
  | loadList tid data hsel hmem =>
      obtain ⟨hdk, hdu, hdsub⟩ := hsaved (tid, data) hmem
      have hmm : ((env.tiers.map Tier.id).map fun t => getD data t)
          = env.tiers.map fun tier => getD data tier.id := by
        rw [List.map_map]
        rfl
      have hle : (((env.tiers.map fun tier => getD data tier.id).flatten
            : List String) : Multiset String)
          ≤ (containerUnion data : Multiset String) := by
        rw [← hmm]
        exact tierSum_le_union data hdk (env.tiers.map Tier.id) hwf.tiersNodup
      have hLnd : ((env.tiers.map fun tier => getD data tier.id).flatten).Nodup :=
        Multiset.coe_nodup.mp
          (Multiset.nodup_of_le hle (Multiset.coe_nodup.mpr hdu))
      have hLsub : ∀ x ∈ (env.tiers.map fun tier => getD data tier.id).flatten,
          x ∈ s.items.map Item.id := by
        intro x hx
        have hx1 : x ∈ containerUnion data :=
          Multiset.mem_coe.mp (Multiset.mem_of_le hle (Multiset.mem_coe.mpr hx))
        have hx2 := hdsub x hx1
        rw [hitems, hsel]
        exact hx2
      refine ⟨?_, hitems, ?_, hsaved⟩
      · rw [keysOf_handleLoadList]
        exact List.Nodup.append hwf.tiersNodup (List.nodup_singleton _)
          (List.disjoint_singleton.mpr hwf.bankNotTier)
      · exact union_handleLoadList env.tiers s.items data hitemsnd hLnd hLsub

/-- Every state reachable by successful public operations satisfies the
inductive invariant. -/
theorem reachableOk_inv {env : Env} (hwf : WFEnv env) {s : AppState}
    (h : ReachableOk env s) : Inv env s := by
  induction h with
  | init => exact initialState_inv hwf
  | ok hr hstep ih => exact step_inv hwf ih hstep

section Claims

/-- C8: the drag session never remains in the Dragging state after a drop
resolves: every drag-end event clears the active item (back to Idle), and
when the drop target is absent or is the dragged item itself, the
containers are not mutated. -/
theorem dragSession_resolves_to_idle (s : DragState) (active : String) (over : Option String) :
    (handleDragEndSession s active over).activeId = none
    ∧ (over = none → (handleDragEndSession s active over).containers = s.containers)
    ∧ (over = some active → (handleDragEndSession s active over).containers = s.containers) := by
  refine ⟨rfl, ?_, ?_⟩
  · rintro rfl
    rfl
  · rintro rfl
    show handleDragEnd s.containers active (some active) = s.containers
    simp [handleDragEnd]

/-- C8 witness: a drop of an item onto itself resolves to Idle with the
container store untouched. -/
theorem dragSession_resolves_to_idle_w :
    (handleDragEndSession
        { activeId := some "item-1"
        , containers := resetContainersFor initialTiersData initialItemsData }
        "item-1" (some "item-1")).activeId = none
    ∧ (handleDragEndSession
        { activeId := some "item-1"
        , containers := resetContainersFor initialTiersData initialItemsData }
        "item-1" (some "item-1")).containers
      = resetContainersFor initialTiersData initialItemsData :=
  ⟨(dragSession_resolves_to_idle
      { activeId := some "item-1"
      , containers := resetContainersFor initialTiersData initialItemsData }
      "item-1" (some "item-1")).1,
   (dragSession_resolves_to_idle
      { activeId := some "item-1"
      , containers := resetContainersFor initialTiersData initialItemsData }
      "item-1" (some "item-1")).2.2 rfl⟩

/-- C7: selecting a template replaces the items with the fetched catalog
and resets the board (tiers empty, bank in catalog order); a failed fetch
clears the items and yields an empty board; no selection restores the
static fallback items. -/
theorem loadItemsForTemplate_spec (tiers : List Tier) (f : List Item)
    (hb : BANK_ID ∉ tiers.map Tier.id) :
    ((loadItemsForTemplate tiers (some (FetchOutcome.success f))).1 = f
      ∧ (∀ t ∈ tiers,
          getD (loadItemsForTemplate tiers (some (FetchOutcome.success f))).2 t.id = [])
      ∧ getD (loadItemsForTemplate tiers (some (FetchOutcome.success f))).2 BANK_ID
          = f.map Item.id)
    ∧ ((loadItemsForTemplate tiers (some FetchOutcome.failure)).1 = []
      ∧ (∀ t ∈ tiers,
          getD (loadItemsForTemplate tiers (some FetchOutcome.failure)).2 t.id = [])
      ∧ getD (loadItemsForTemplate tiers (some FetchOutcome.failure)).2 BANK_ID = [])
    ∧ ((loadItemsForTemplate tiers none).1 = initialItemsData
      ∧ (∀ t ∈ tiers, getD (loadItemsForTemplate tiers none).2 t.id = [])
      ∧ getD (loadItemsForTemplate tiers none).2 BANK_ID = initialItemsData.map Item.id) := by
  refine ⟨⟨rfl, ?_, ?_⟩, ⟨rfl, ?_, ?_⟩, ⟨rfl, ?_, ?_⟩⟩
  · intro t ht
    exact getD_resetContainersFor_tier f ht
  · exact getD_resetContainersFor_bank f hb
  · intro t ht
    exact getD_resetContainersFor_tier [] ht
  · exact getD_resetContainersFor_bank [] hb
  · intro t ht
    exact getD_resetContainersFor_tier initialItemsData ht
  · exact getD_resetContainersFor_bank initialItemsData hb

/-- C7 witness: a failed fetch leaves an empty bank for the static tiers. -/
theorem loadItemsForTemplate_spec_w :
    getD (loadItemsForTemplate initialTiersData (some FetchOutcome.failure)).2 BANK_ID = [] :=
  (loadItemsForTemplate_spec initialTiersData initialItemsData (by decide)).2.1.2.2

/-- C9 counterexample: an id loaded in no container, dropped onto the
existing tier container of a freshly reset board, is not appended there;
the claimed insertion does not happen. -/
theorem dragEnd_unloaded_cex :
    ¬ getD (handleDragEnd (resetContainersFor initialTiersData initialItemsData)
          "item-9" (some "tier-a")) "tier-a"
        = getD (resetContainersFor initialTiersData initialItemsData) "tier-a" ++ ["item-9"] := by
  decide

/-- C9 amended: when the dragged id is loaded in no container, the
drag-end is rejected at the missing-source check (before the defensive
scan can run) and the container store is returned unchanged. -/
theorem dragEnd_unloaded_rejected (m : Containers) (a : String) (o : Option String)
    (h : a ∉ containerUnion m) : handleDragEnd m a o = m := by
  cases o with
  | none => rfl
  | some overId =>
      by_cases hao : a = overId
      · simp [handleDragEnd, hao]
      · simp [handleDragEnd, hao, findContainer_eq_none_iff.mpr h]

/-- C9 witness: the rejected move on a freshly reset board. -/
theorem dragEnd_unloaded_rejected_w :
    handleDragEnd (resetContainersFor initialTiersData initialItemsData)
        "item-9" (some "tier-a")
      = resetContainersFor initialTiersData initialItemsData :=
  dragEnd_unloaded_rejected (resetContainersFor initialTiersData initialItemsData)
    "item-9" (some "tier-a") (by decide)

/-- C4 counterexample: moving item-3 from tier-a to the bank with
bank=[item-1,item-2,item-4,item-5] does not put it at index 0; the
claimed front insertion does not happen. -/
theorem dragEnd_destIndex_cex :
    ¬ getD (handleDragEnd
          [("tier-s", []), ("tier-a", ["item-3"]), ("tier-b", []), ("tier-c", []),
           ("tier-d", []), ("bank", ["item-1", "item-2", "item-4", "item-5"])]
          "item-3" (some "bank")) "bank"
        = ["item-3", "item-1", "item-2", "item-4", "item-5"] := by
  decide

/-- C4 amended: the destination index is ignored; a moved item is spliced
out of its source and always appended at the end of the destination
sequence, so Scenario B yields bank=[item-1,item-2,item-4,item-5,item-3]. -/
theorem dragEnd_appends_at_end (m : Containers) (a d src : String)
    (had : a ≠ d) (hd : d ≠ "") (hsrc : findContainer m a = some src)
    (hmem : a ∈ getD m src) (hne : src ≠ d) :
    (getD (handleDragEnd m a (some d)) d = getD m d ++ [a]
      ∧ getD (handleDragEnd m a (some d)) src = removeFirst (getD m src) a)
    ∧ getD (handleDragEnd
          [("tier-s", []), ("tier-a", ["item-3"]), ("tier-b", []), ("tier-c", []),
           ("tier-d", []), ("bank", ["item-1", "item-2", "item-4", "item-5"])]
          "item-3" (some "bank")) "bank"
        = ["item-1", "item-2", "item-4", "item-5", "item-3"] := by
  refine ⟨⟨?_, ?_⟩, by decide⟩
  · rw [handleDragEnd_some_eq had hsrc hd, if_pos hmem, getD_setKey_self,
      getD_setKey_ne _ (Ne.symm hne)]
  · rw [handleDragEnd_some_eq had hsrc hd, if_pos hmem, getD_setKey_ne _ hne,
      getD_setKey_self]

/-- C4 witness: Scenario B's move appends the item at the end of the bank. -/
theorem dragEnd_appends_at_end_w :
    getD (handleDragEnd
        [("tier-s", []), ("tier-a", ["item-3"]), ("tier-b", []), ("tier-c", []),
         ("tier-d", []), ("bank", ["item-1", "item-2", "item-4", "item-5"])]
        "item-3" (some "bank")) "bank"
      = getD [("tier-s", []), ("tier-a", ["item-3"]), ("tier-b", []), ("tier-c", []),
         ("tier-d", []), ("bank", ["item-1", "item-2", "item-4", "item-5"])] "bank"
        ++ ["item-3"] :=
  (dragEnd_appends_at_end
    [("tier-s", []), ("tier-a", ["item-3"]), ("tier-b", []), ("tier-c", []),
     ("tier-d", []), ("bank", ["item-1", "item-2", "item-4", "item-5"])]
    "item-3" "bank" "tier-a"
    (by decide) (by decide) (by decide) (by decide) (by decide)).1.1

/-- C5 counterexample: dropping item-3 onto its own container tier-a
(where it sits at index 0, followed by item-4) changes the store: the
item is re-appended at the end, so the sequences are not left unchanged. -/
theorem dragEnd_self_drop_cex :
    ¬ handleDragEnd
        [("tier-s", []), ("tier-a", ["item-3", "item-4"]), ("tier-b", []), ("tier-c", []),
         ("tier-d", []), ("bank", ["item-1", "item-2", "item-5"])]
        "item-3" (some "tier-a")
      = [("tier-s", []), ("tier-a", ["item-3", "item-4"]), ("tier-b", []), ("tier-c", []),
         ("tier-d", []), ("bank", ["item-1", "item-2", "item-5"])] := by
  decide

/-- C5 amended: dropping an item onto its own container removes it and
re-appends it at the end, so the store is unchanged exactly when the item
already sits at the last position of its container. -/
theorem dragEnd_self_drop_noop_of_last (m : Containers) (a c : String) (l : List String)
    (hac : a ≠ c) (hfc : findContainer m a = some c)
    (hval : getD m c = l ++ [a]) (hnl : a ∉ l) :
    handleDragEnd m a (some c) = m := by
  by_cases hce : c = ""
  · subst hce
    simp [handleDragEnd, hac, hfc]
  · have hmem : a ∈ getD m c := by
      rw [hval]
      simp
    rw [handleDragEnd_some_eq hac hfc hce, if_pos hmem, hval,
      removeFirst_append_last hnl, getD_setKey_self, setKey_setKey, ← hval]
    exact setKey_getD_self (findContainer_hasKey hfc)

/-- C5 witness: dropping the last item of tier-a onto tier-a is a no-op. -/
theorem dragEnd_self_drop_noop_of_last_w :
    handleDragEnd
        [("tier-s", []), ("tier-a", ["item-4", "item-3"]), ("tier-b", []), ("tier-c", []),
         ("tier-d", []), ("bank", ["item-1", "item-2", "item-5"])]
        "item-3" (some "tier-a")
      = [("tier-s", []), ("tier-a", ["item-4", "item-3"]), ("tier-b", []), ("tier-c", []),
         ("tier-d", []), ("bank", ["item-1", "item-2", "item-5"])] :=
  dragEnd_self_drop_noop_of_last
    [("tier-s", []), ("tier-a", ["item-4", "item-3"]), ("tier-b", []), ("tier-c", []),
     ("tier-d", []), ("bank", ["item-1", "item-2", "item-5"])]
    "item-3" "tier-a" ["item-4"] (by decide) (by decide) (by decide) (by decide)

/-- C6 counterexample: a move whose destination id is not a key of the
store is not rejected: the store changes (the key is created and the item
moved into it). -/
theorem dragEnd_missing_dest_cex :
    ¬ handleDragEnd (resetContainersFor initialTiersData initialItemsData)
        "item-1" (some "tier-x")
      = resetContainersFor initialTiersData initialItemsData := by
  decide

/-- C6 amended: a move to a destination id that is not a key of the store
does not throw, but instead of rejecting the operation it splices the item
out of its source and appends a new container entry holding the item under
the missing id; only an absent or empty-string drop target is rejected. -/
theorem dragEnd_missing_dest_creates (m : Containers) (a d src : String)
    (had : a ≠ d) (hd : d ≠ "") (hsrc : findContainer m a = some src)
    (hmem : a ∈ getD m src) (hnd : hasKey m d = false) :
    handleDragEnd m a (some d)
      = setKey m src (removeFirst (getD m src) a) ++ [(d, [a])] := by
  rw [handleDragEnd_some_eq had hsrc hd, if_pos hmem]
  have hk1 : hasKey (setKey m src (removeFirst (getD m src) a)) d = false := by
    rw [hasKey_eq_false_iff, keysOf_setKey, if_pos (hasKey_of_mem_getD hmem)]
    exact hasKey_eq_false_iff.mp hnd
  rw [getD_eq_nil_of_not_hasKey hk1, setKey_of_not_hasKey _ hk1]
  rfl

/-- C6 witness: the stale destination id tier-x is created, holding the
moved item. -/
theorem dragEnd_missing_dest_creates_w :
    handleDragEnd (resetContainersFor initialTiersData initialItemsData)
        "item-1" (some "tier-x")
      = setKey (resetContainersFor initialTiersData initialItemsData) "bank"
          (removeFirst (getD (resetContainersFor initialTiersData initialItemsData) "bank")
            "item-1")
        ++ [("tier-x", ["item-1"])] :=
  dragEnd_missing_dest_creates (resetContainersFor initialTiersData initialItemsData)
    "item-1" "tier-x" "bank" (by decide) (by decide) (by decide) (by decide) (by decide)

/-- C10: loading a saved map in which an id occurs in the entries of
several tier ids copies every tier entry verbatim (no deduplication), so
the id appears in each of those tiers and is excluded from the bank. -/
theorem handleLoadList_keeps_duplicates (tiers : List Tier) (items : List Item)
    (data : Containers) (t : Tier) (x : String)
    (hnd : (tiers.map Tier.id).Nodup) (hb : BANK_ID ∉ tiers.map Tier.id)
    (ht : t ∈ tiers) (hx : x ∈ getD data t.id) :
    getD (handleLoadList tiers items data) t.id = getD data t.id
    ∧ x ∉ getD (handleLoadList tiers items data) BANK_ID := by
  refine ⟨getD_handleLoadList_tier items data hnd ht, ?_⟩
  rw [getD_handleLoadList_bank tiers items data hb]
  intro hmem
  exact (mem_filter_map_id.mp hmem).2 (mem_tierFlatten.mpr ⟨t, ht, hx⟩)

/-- C10 witness: item-3 saved under both tier-a and tier-b loads into
both tiers and stays out of the bank. -/
theorem handleLoadList_keeps_duplicates_w :
    (getD (handleLoadList initialTiersData initialItemsData
        [("tier-a", ["item-3"]), ("tier-b", ["item-3"])]) "tier-a" = ["item-3"])
    ∧ (getD (handleLoadList initialTiersData initialItemsData
        [("tier-a", ["item-3"]), ("tier-b", ["item-3"])]) "tier-b" = ["item-3"])
    ∧ "item-3" ∉ getD (handleLoadList initialTiersData initialItemsData
        [("tier-a", ["item-3"]), ("tier-b", ["item-3"])]) BANK_ID :=
  ⟨((handleLoadList_keeps_duplicates initialTiersData initialItemsData
      [("tier-a", ["item-3"]), ("tier-b", ["item-3"])]
      { id := "tier-a", label := "A", color := "bg-orange-500" } "item-3"
      (by decide) (by decide) (by decide) (by decide)).1).trans (by decide),
   ((handleLoadList_keeps_duplicates initialTiersData initialItemsData
      [("tier-a", ["item-3"]), ("tier-b", ["item-3"])]
      { id := "tier-b", label := "B", color := "bg-yellow-500" } "item-3"
      (by decide) (by decide) (by decide) (by decide)).1).trans (by decide),
   (handleLoadList_keeps_duplicates initialTiersData initialItemsData
      [("tier-a", ["item-3"]), ("tier-b", ["item-3"])]
      { id := "tier-b", label := "B", color := "bg-yellow-500" } "item-3"
      (by decide) (by decide) (by decide) (by decide)).2⟩

/-- C3: applying a saved arrangement sets each tier to the saved entry
for its id (empty when absent), and the bank to exactly the catalog items
appearing in no tier entry, in catalog order (a sublist of the catalog);
Scenario C reconstructs tier-a=[item-3], bank=[item-1,item-2,item-4,item-5]. -/
theorem handleLoadList_spec (tiers : List Tier) (items : List Item) (data : Containers)
    (hnd : (tiers.map Tier.id).Nodup) (hb : BANK_ID ∉ tiers.map Tier.id) :
    (∀ t ∈ tiers, getD (handleLoadList tiers items data) t.id = getD data t.id)
    ∧ (∀ x, x ∈ getD (handleLoadList tiers items data) BANK_ID
        ↔ x ∈ items.map Item.id ∧ ∀ t ∈ tiers, x ∉ getD data t.id)
    ∧ List.Sublist (getD (handleLoadList tiers items data) BANK_ID) (items.map Item.id)
    ∧ handleLoadList initialTiersData initialItemsData [("tier-a", ["item-3"])]
        = [("tier-s", []), ("tier-a", ["item-3"]), ("tier-b", []), ("tier-c", []),
           ("tier-d", []), ("bank", ["item-1", "item-2", "item-4", "item-5"])] := by
  refine ⟨?_, ?_, ?_, by decide⟩
  · intro t ht
    exact getD_handleLoadList_tier items data hnd ht
  · intro x
    rw [getD_handleLoadList_bank tiers items data hb, mem_filter_map_id]
    constructor
    · rintro ⟨h1, h2⟩
      exact ⟨h1, fun t ht hx => h2 (mem_tierFlatten.mpr ⟨t, ht, hx⟩)⟩
    · rintro ⟨h1, h2⟩
      refine ⟨h1, fun hx => ?_⟩
      rcases mem_tierFlatten.mp hx with ⟨t, ht, hx2⟩
      exact h2 t ht hx2
  · rw [getD_handleLoadList_bank tiers items data hb]
    exact (List.filter_sublist items).map Item.id

/-- C3 witness: Scenario C's bank is a catalog-ordered sublist. -/
theorem handleLoadList_spec_w :
    List.Sublist (getD (handleLoadList initialTiersData initialItemsData
        [("tier-a", ["item-3"])]) BANK_ID) (initialItemsData.map Item.id) :=
  (handleLoadList_spec initialTiersData initialItemsData [("tier-a", ["item-3"])]
    (by decide) (by decide)).2.2.1

/-- ContainerSet with the invariants satisfied but a bank that is not in
catalog order. -/
def bankReordered : Containers :=
  [("tier-s", []), ("tier-a", []), ("tier-b", []), ("tier-c", []), ("tier-d", []),
   ("bank", ["item-2", "item-1", "item-3", "item-4", "item-5"])]

/-- C2 counterexample: a state satisfying completeness and exclusivity,
with every id in the catalog, whose save/load round trip is not the
identity (the bank is rebuilt in catalog order, not its saved order). -/
theorem roundtrip_cex :
    ((containerUnion bankReordered).Nodup
      ∧ (∀ x ∈ containerUnion bankReordered, x ∈ initialItemsData.map Item.id)
      ∧ (∀ x ∈ initialItemsData.map Item.id, x ∈ containerUnion bankReordered))
    ∧ ¬ handleLoadList initialTiersData initialItemsData (handleSaveList bankReordered)
        = bankReordered := by
  decide

/-- C2 amended: for an invariant-satisfying ContainerSet over the current
catalog, the save/load round trip returns the same keys and identical
tier sequences, and a bank with exactly the same members re-ordered to
catalog order; equality with the original therefore holds up to bank
order. -/
theorem roundtrip_up_to_bank_order (tiers : List Tier) (items : List Item) (X : Containers)
    (hX : X = (tiers.map fun t => (t.id, getD X t.id)) ++ [(BANK_ID, getD X BANK_ID)])
    (hnd : (tiers.map Tier.id).Nodup) (hb : BANK_ID ∉ tiers.map Tier.id)
    (hind : (items.map Item.id).Nodup)
    (hexcl : (containerUnion X).Nodup)
    (hsub1 : ∀ x ∈ containerUnion X, x ∈ items.map Item.id)
    (hsub2 : ∀ x ∈ items.map Item.id, x ∈ containerUnion X) :
    keysOf (handleLoadList tiers items (handleSaveList X)) = keysOf X
    ∧ (∀ t ∈ tiers, getD (handleLoadList tiers items (handleSaveList X)) t.id = getD X t.id)
    ∧ List.Perm (getD (handleLoadList tiers items (handleSaveList X)) BANK_ID)
        (getD X BANK_ID) := by
  have htb : ∀ t ∈ tiers, t.id ≠ BANK_ID := by
    intro t ht he
    exact hb (he ▸ List.mem_map_of_mem Tier.id ht)
  have hsavetier : ∀ t ∈ tiers, getD (handleSaveList X) t.id = getD X t.id := fun t ht =>
    getD_handleSaveList (htb t ht)
  have hLeq : (tiers.map fun tier => getD (handleSaveList X) tier.id)
      = tiers.map fun tier => getD X tier.id :=
    map_congr_mem fun t ht => hsavetier t ht
  have hXunion : containerUnion X
      = (tiers.map fun tier => getD X tier.id).flatten ++ getD X BANK_ID := by
    conv_lhs => rw [hX]
    rw [containerUnion_append]
    have h1 : containerUnion (tiers.map fun t => (t.id, getD X t.id))
        = (tiers.map fun tier => getD X tier.id).flatten := by
      rw [containerUnion, List.map_map]
      rfl
    have h2 : containerUnion [(BANK_ID, getD X BANK_ID)] = getD X BANK_ID := by
      simp [containerUnion]
    rw [h1, h2]
  have hXsplit := hexcl
  rw [hXunion] at hXsplit
  rcases List.nodup_append.mp hXsplit with ⟨hLnd, hbnd, hdis⟩
  refine ⟨?_, ?_, ?_⟩
  · rw [keysOf_handleLoadList]
    conv_rhs => rw [hX]
    rw [keysOf_append, keysOf_mapTiers]
    rfl
  · intro t ht
    rw [getD_handleLoadList_tier items (handleSaveList X) hnd ht]
    exact hsavetier t ht
  · rw [getD_handleLoadList_bank tiers items (handleSaveList X) hb, hLeq]
    have hresnd : ((items.filter fun item =>
        decide (item.id ∉ (tiers.map fun tier => getD X tier.id).flatten)).map
          Item.id).Nodup :=
      hind.sublist ((List.filter_sublist items).map Item.id)
    rw [List.perm_ext_iff_of_nodup hresnd hbnd]
    intro x
    rw [mem_filter_map_id]
    constructor
    · rintro ⟨hx1, hx2⟩
      have hxu := hsub2 x hx1
      rw [hXunion] at hxu
      rcases List.mem_append.mp hxu with h | h
      · exact absurd h hx2
      · exact h
    · intro hxb
      have hxu : x ∈ containerUnion X := by
        rw [hXunion]
        exact List.mem_append.mpr (Or.inr hxb)
      exact ⟨hsub1 x hxu, fun hxL => hdis hxL hxb⟩

/-- C2 witness: the round trip on a canonical arrangement over the static
catalog preserves the bank up to permutation. -/
theorem roundtrip_up_to_bank_order_w :
    List.Perm (getD (handleLoadList initialTiersData initialItemsData
        (handleSaveList
          [("tier-s", []), ("tier-a", ["item-3"]), ("tier-b", []), ("tier-c", []),
           ("tier-d", []), ("bank", ["item-1", "item-2", "item-4", "item-5"])])) BANK_ID)
      (getD [("tier-s", []), ("tier-a", ["item-3"]), ("tier-b", []), ("tier-c", []),
           ("tier-d", []), ("bank", ["item-1", "item-2", "item-4", "item-5"])] BANK_ID) :=
  (roundtrip_up_to_bank_order initialTiersData initialItemsData
    [("tier-s", []), ("tier-a", ["item-3"]), ("tier-b", []), ("tier-c", []),
     ("tier-d", []), ("bank", ["item-1", "item-2", "item-4", "item-5"])]
    (by decide) (by decide) (by decide) (by decide) (by decide) (by decide)
    (by decide)).2.2

/-- Environment whose catalog fetches always return the static items,
used to witness the reachability invariant. -/
def env0 : Env := { tiers := initialTiersData, catalogOf := fun _ => initialItemsData }

/-- Environment with a one-item catalog, used for the reachability
counterexample. -/
def envX : Env :=
  { tiers := initialTiersData
  , catalogOf := fun _ => [{ id := "item-x", name := "X", imageUrl := "/x.svg" }] }

/-- Saved projection of the arrangement that placed item-x on tier-a. -/
def savedX : Containers :=
  [("tier-s", []), ("tier-a", ["item-x"]), ("tier-b", []), ("tier-c", []), ("tier-d", [])]

/-- State reached by saving item-x on tier-a, re-selecting the template
through a failed fetch, and loading the saved arrangement back. -/
def badState : AppState :=
  { selectedTemplate := some "t1"
  , items := []
  , containers := [("tier-s", []), ("tier-a", ["item-x"]), ("tier-b", []), ("tier-c", []),
      ("tier-d", []), ("bank", [])]
  , savedLists := [("t1", savedX)] }

/-- C1 counterexample: with fetch failures allowed, a reachable state
holds item-x in a container while the loaded item id set is empty, so the
completeness part of the invariant fails on a reachable state. -/
theorem reachable_invariant_cex :
    Reachable envX badState
    ∧ "item-x" ∈ containerUnion badState.containers
    ∧ "item-x" ∉ badState.items.map Item.id := by
  refine ⟨?_, by decide, by decide⟩
  have h1 := Reachable.ok (@Reachable.init envX)
    (Step.selectTemplate (initialState envX) (some "t1"))
  have h2 := Reachable.ok h1 (Step.dragEnd _ "item-x" (some "tier-a"))
  have h3 := Reachable.ok h2 (Step.saveList _ "t1" rfl)
  have h4 := Reachable.fail h3 (FailStep.selectTemplateFail _ "t1")
  have h5 := Reachable.ok h4 (Step.loadList _ "t1" savedX rfl (by decide))
  convert h5 using 2

/-- C1 amended: along traces in which every item-catalog fetch succeeds,
every reachable state satisfies the invariant: a loaded id is in the
union exactly when it is a current item id, and every current item id is
held by exactly one container.  (With fetch failures included the claim
fails, see the counterexample.) -/
theorem reachable_invariant (env : Env) (hwf : WFEnv env) (s : AppState)
    (h : ReachableOk env s) :
    (∀ x, x ∈ containerUnion s.containers ↔ x ∈ s.items.map Item.id)
    ∧ ∀ x ∈ s.items.map Item.id, (containersHolding s.containers x).length = 1 := by
  obtain ⟨hkeys, hitems, hperm, hsaved⟩ := reachableOk_inv hwf h
  have hind : (s.items.map Item.id).Nodup := by
    rw [hitems]
    exact envItems_id_nodup hwf _
  refine ⟨fun x => hperm.mem_iff, fun x hx => ?_⟩
  exact containersHolding_length_one (hperm.nodup_iff.mpr hind) (hperm.mem_iff.mpr hx)

/-- C1 witness: in the initial state of the static environment, item-3
is held by exactly one container. -/
theorem reachable_invariant_w :
    (containersHolding (initialState env0).containers "item-3").length = 1 :=
  (reachable_invariant env0
    ⟨by decide, by decide, fun _ => (by decide : (initialItemsData.map Item.id).Nodup)⟩
    (initialState env0) ReachableOk.init).2 "item-3" (by decide)

end Claims

end TierList
